import Mathlib

/-!
# Verification of the PDF-ExtractorAI core logic

Shallow embedding of the repository's real logic:

* `startExtraction` / `handleDataUpdate` / `handleFilesSelected` from `src/App.tsx`
  (the extraction orchestrator and the store edit operations);
* `findField` / `summaryRows` from `src/components/ExcelSummary.tsx`
  (field-to-role resolution and the grouping engine);
* `exportToExcel` from the excel service (`src/unnamed/part_002`).

JavaScript-specific behaviour that the claims depend on is modelled explicitly:
string truthiness (`'' `, `0`, `null`, `undefined` are falsy), object spread key
order, and the `Object.entries` enumeration order (canonical array-index keys
ascending first, then remaining string keys in insertion order).
-/

namespace PDFExtractor

/-! ## String utilities modelling the JavaScript operations used by the code -/

/-- Substring occurrence on character lists: `pat` occurs somewhere in the list.
Every regular expression appearing in `ExcelSummary.tsx` (`/customer/i`,
`/job no/i`, ...) is a plain lower-case literal, so `RegExp.test` on a
lower-cased subject is exactly substring containment. -/
def subOccurs (pat : List Char) : List Char → Bool
  | [] => pat.isEmpty
  | c :: cs => pat.isPrefixOf (c :: cs) || subOccurs pat cs

/-- Model of `strContainsSub s pat`: the literal `pat` occurs in `s`. -/
def strContainsSub (s pat : String) : Bool :=
  subOccurs pat.toList s.toList

/-- JavaScript `s.toLowerCase()`, character by character. -/
def jsToLower (s : String) : String :=
  String.mk (s.toList.map Char.toLower)

/-- JavaScript `s.trim()`: strip leading and trailing whitespace. -/
def jsTrim (s : String) : String :=
  String.mk (((s.toList.dropWhile Char.isWhitespace).reverse.dropWhile
    Char.isWhitespace).reverse)

/-! ## Data model (`src/types.ts`) -/

/-- A JSON-ish field value: the TS type `string | number | null` of
`ExtractedData.data` values. -/
inductive FVal where
  | str (s : String)
  | num (n : Int)
  | null
deriving DecidableEq, Repr

/-- JavaScript `String(v)` on a field value. -/
def FVal.toJsString : FVal → String
  | .str s => s
  | .num n => toString n
  | .null => "null"

/-- JavaScript truthiness of a field value: `''`, `0` and `null` are falsy. -/
def FVal.truthy : FVal → Bool
  | .str s => s ≠ ""
  | .num n => n ≠ 0
  | .null => false

/-- A flat extraction record: an ordered key/value object, as produced by
`JSON.parse` of the extraction response. -/
abbrev Record := List (String × FVal)

/-- JavaScript property read `r[k]` (first binding of the key; objects built by
the code never carry duplicate keys). `undefined` is `none`. -/
def lookupRec (r : Record) (k : String) : Option FVal :=
  (r.find? (fun p => p.1 == k)).map (·.2)

/-- Model of `ExtractedData.status` from `src/types.ts`. -/
inductive Status where
  | pending
  | processing
  | success
  | error
deriving DecidableEq, Repr

/-- Model of `ExtractedData` from `src/types.ts`. -/
structure ExtractedData where
  id : Nat
  fileName : String
  status : Status
  data : Option Record := none
  error : Option String := none
deriving DecidableEq, Repr

/-- An uploaded document (`File`): its name plus abstract content bytes. -/
structure Document where
  name : String
  content : Nat := 0
deriving DecidableEq, Repr

/-- Model of `ProcessingStatus` from `src/types.ts`. -/
inductive ProcStatus where
  | idle
  | extracting
  | completed
deriving DecidableEq, Repr

/-- The `activeTab` state of `App`. -/
inductive Tab where
  | all
  | selected
deriving DecidableEq, Repr

/-- The `App` component's state (`src/App.tsx`): the pieces of React state the
claims are about.  Note that there is no batch-generation field. -/
structure AppState where
  files : List Document := []
  fields : List String := []
  results : List ExtractedData := []
  status : ProcStatus := .idle
  selectedIds : List Nat := []
  activeTab : Tab := .all
deriving DecidableEq, Repr

/-! ## File selection (`handleFilesSelected`, `src/App.tsx` lines 22-27) -/

/-- Model of `handleFilesSelected`: skip incoming files whose name is already present,
then append the rest.  The filter tests only against the names present *before*
the call; incoming files are not checked against one another. -/
def handleFilesSelected (files newFiles : List Document) : List Document :=
  let existingNames := files.map (·.name)
  let uniqueFiles := newFiles.filter (fun f => !(existingNames.contains f.name))
  files ++ uniqueFiles

/-! ## Post-hoc data edits (`handleDataUpdate`, `src/App.tsx` lines 69-82) -/

/-- Update every binding of key `k` to `v` (the in-place part of the spread
`{...item.data, [field]: value}` when the key already exists). -/
def updateKey (k : String) (v : FVal) : Record → Record :=
  List.map (fun p => if p.1 == k then (p.1, v) else p)

/-- JavaScript object spread with a computed key, `{...d, [k]: v}`: if `k` is
already a key its binding is updated in place, otherwise `(k, v)` is appended. -/
def objSetKey (d : Record) (k : String) (v : FVal) : Record :=
  if d.any (fun p => p.1 == k) then updateKey k v d else d ++ [(k, v)]

/-- Model of `handleDataUpdate`: map over the results; on the item with the given id
that has a `data` object, replace `data` by `{...data, [field]: value}`;
everything else is returned unchanged. -/
def handleDataUpdate (results : List ExtractedData) (id : Nat) (field : String)
    (value : String) : List ExtractedData :=
  results.map fun item =>
    if item.id == id && item.data.isSome then
      { item with data := item.data.map (fun d => objSetKey d field (.str value)) }
    else item

/-! ## The extraction orchestrator (`startExtraction`, `src/App.tsx` lines 88-139) -/

/-- The initial `Pending` items, one per file in input order.  `generateId()` is
a fresh random id per item; it is modelled by the item's batch index, which
keeps the only property the code relies on (a distinct id per item). -/
def initResultsFrom (i : Nat) : List Document → List ExtractedData
  | [] => []
  | f :: fs => { id := i, fileName := f.name, status := .pending } :: initResultsFrom (i + 1) fs

/-- Model of `files.map(file => ({ id: generateId(), fileName: file.name, status: 'pending' }))`. -/
def initResults (files : List Document) : List ExtractedData :=
  initResultsFrom 0 files

/-- Model of `(error as Error).message || 'Extraction failed'`. -/
def errMessage (e : String) : String :=
  if e = "" then "Extraction failed" else e

/-- One iteration of the extraction loop for one document: set the item to
`processing`, call the injected extraction operation, and commit either
`success` with the returned data or `error` with the message. -/
def processDoc (extract : Document → List String → Except String Record)
    (fields : List String) (f : Document) (item : ExtractedData) : ExtractedData :=
  let item := { item with status := Status.processing }
  match extract f fields with
  | .ok d => { item with status := Status.success, data := some d }
  | .error e => { item with status := Status.error, error := some (errMessage e) }

/-- The sequential loop `for (let i = 0; i < files.length; i++) ...`: files and
the items array are walked in lockstep, each slot rewritten by `processDoc`. -/
def runLoop (extract : Document → List String → Except String Record)
    (fields : List String) : List Document → List ExtractedData → List ExtractedData
  | [], items => items
  | _ :: _, [] => []
  | f :: fs, item :: items => processDoc extract fields f item :: runLoop extract fields fs items

/-- Model of `startExtraction`: guard on empty files/fields (a bare `return`, leaving all
state untouched); otherwise initialize pending items, select the first item,
run the sequential loop, and finish with status `completed`. -/
def startExtraction (extract : Document → List String → Except String Record)
    (st : AppState) : AppState :=
  if st.files.length = 0 ∨ st.fields.length = 0 then st
  else
    let initial := initResults st.files
    let sel := match initial.head? with
      | some it => [it.id]
      | none => []
    { st with
      status := ProcStatus.completed
      activeTab := Tab.all
      results := runLoop extract st.fields st.files initial
      selectedIds := sel }

/-- The store write performed inside the extraction loop:
`setResults([...updatedResults])`.  The component state holds only the results
array — there is no batch-generation tag anywhere in `AppState` — so the write
replaces whatever store is current with the looping batch's own array,
unconditionally. -/
def commitBatchResults (_currentResults updatedResults : List ExtractedData) :
    List ExtractedData :=
  updatedResults

/-! ## Field-to-role resolution (`findField`, `src/components/ExcelSummary.tsx` lines 22-30) -/

/-- Model of `p.test(f.toLowerCase())` for one of the code's literal patterns `p`
(all are lower-case literals with the `i` flag): substring containment in the
case-folded field name. -/
def patTest (pat f : String) : Bool :=
  strContainsSub (jsToLower f) pat

/-- Model of `findField`: `fields.find(f => patterns.some(p => p.test(f.toLowerCase())))` —
the first field, in FieldSet order, whose case-folded name matches *any* of the
patterns. -/
def findField (fields patterns : List String) : Option String :=
  fields.find? (fun f => patterns.any (fun p => patTest p f))

def customerPatterns : List String := ["customer", "name", "client"]
def jobPatterns : List String := ["job no", "job", "number"]
def advancePatterns : List String := ["advance total", "advance"]
def termsPatterns : List String := ["payment terms", "terms", "payment"]
def datePatterns : List String := ["invoice date", "date"]
def grandTotalPatterns : List String := ["grand total", "total amount", "total", "amount"]

/-- JavaScript `found || fallback` on an optional field name: an empty-string
field name is falsy and also falls through to the fallback. -/
def jsOrField (found fallback : Option String) : Option String :=
  match found with
  | some f => if f = "" then fallback else some f
  | none => fallback

/-- The six role fields resolved once per `summaryRows` evaluation. -/
structure RoleFields where
  customerField : Option String
  jobField : Option String
  advanceField : Option String
  termsField : Option String
  dateField : Option String
  grandTotalField : Option String
deriving DecidableEq, Repr

/-- The role resolution block of `summaryRows`: only the Customer role falls
back to `fields[0]`. -/
def resolveRoleFields (fields : List String) : RoleFields :=
  { customerField := jsOrField (findField fields customerPatterns) fields.head?
    jobField := findField fields jobPatterns
    advanceField := findField fields advancePatterns
    termsField := findField fields termsPatterns
    dateField := findField fields datePatterns
    grandTotalField := findField fields grandTotalPatterns }

/-! ## The grouping engine (`summaryRows`, `src/components/ExcelSummary.tsx` lines 15-93) -/

/-- One group accumulator, as built in the `groups` object. -/
structure Group where
  customerName : String
  jobNos : List String := []
  advanceTotals : List String := []
  paymentTerms : List String := []
  invoiceDates : List String := []
  grandTotals : List String := []
  files : List String := []
  ids : List Nat := []
deriving DecidableEq, Repr

/-- Model of `Set.add` on a JavaScript `Set<string>`: insertion-ordered, exact-match
deduplicated. -/
def osAdd (l : List String) (s : String) : List String :=
  if s ∈ l then l else l ++ [s]

/-- The `addToSet` helper: add `String(item.data[field])` when the field is
resolved (to a truthy, i.e. non-empty, name) and the looked-up value is truthy. -/
def addToSet (data : Record) (l : List String) (field : Option String) : List String :=
  match field with
  | none => l
  | some f =>
    if f = "" then l
    else
      match lookupRec data f with
      | none => l
      | some v => if v.truthy then osAdd l v.toJsString else l

/-- Model of `String(customerVal || 'Unknown')`: the raw (untrimmed) customer display
string; any falsy value (absent, `null`, `''`, `0`) becomes `"Unknown"`. -/
def rawCustomer (cf : Option String) (data : Record) : String :=
  match cf.bind (fun f => lookupRec data f) with
  | some v => if v.truthy then v.toJsString else "Unknown"
  | none => "Unknown"

/-- Model of `String(customerVal || 'Unknown').trim().toLowerCase()`: the group key. -/
def customerKeyOf (cf : Option String) (data : Record) : String :=
  jsToLower (jsTrim (rawCustomer cf data))

/-- The raw customer string of an item (its `data` defaulting to the empty
object, which the filter guarantees never happens). -/
def rawOf (rf : RoleFields) (item : ExtractedData) : String :=
  rawCustomer rf.customerField (item.data.getD [])

/-- The normalized group key of an item. -/
def itemKeyOf (rf : RoleFields) (item : ExtractedData) : String :=
  customerKeyOf rf.customerField (item.data.getD [])

/-- A freshly created group: `{ customerName: String(customerVal || 'Unknown'),
jobNos: new Set(), ... }`. -/
def emptyGroup (name : String) : Group :=
  { customerName := name }

/-- The per-item mutation of a group: the five `addToSet` calls plus the
`files.push` / `ids.push`. -/
def appendItem (rf : RoleFields) (g : Group) (item : ExtractedData) : Group :=
  let data := item.data.getD []
  { g with
    jobNos := addToSet data g.jobNos rf.jobField
    advanceTotals := addToSet data g.advanceTotals rf.advanceField
    paymentTerms := addToSet data g.paymentTerms rf.termsField
    invoiceDates := addToSet data g.invoiceDates rf.dateField
    grandTotals := addToSet data g.grandTotals rf.grandTotalField
    files := g.files ++ [item.fileName]
    ids := g.ids ++ [item.id] }

/-- Property read on the insertion-ordered `groups` object. -/
def lookupGroup (groups : List (String × Group)) (k : String) : Option Group :=
  (groups.find? (fun p => p.1 == k)).map (·.2)

/-- Property write on the `groups` object: an existing key keeps its insertion
position, a new key is appended. -/
def setGroup : List (String × Group) → String → Group → List (String × Group)
  | [], k, g => [(k, g)]
  | p :: rest, k, g => if p.1 == k then (k, g) :: rest else p :: setGroup rest k g

/-- The body of `selectedItems.forEach(item => ...)`: create the group on first
sight of the key, then mutate it with the item's values. -/
def stepGroups (rf : RoleFields) (groups : List (String × Group))
    (item : ExtractedData) : List (String × Group) :=
  let data := item.data.getD []
  let k := customerKeyOf rf.customerField data
  let g0 := match lookupGroup groups k with
    | some g => g
    | none => emptyGroup (rawCustomer rf.customerField data)
  setGroup groups k (appendItem rf g0 item)

/-- The whole `forEach` over the filtered items, starting from `{}`. -/
def groupsOf (rf : RoleFields) (items : List ExtractedData) : List (String × Group) :=
  items.foldl (stepGroups rf) []

/-- The numeric value of an all-digit key. -/
def digitsToNat (s : String) : Nat :=
  s.toList.foldl (fun n c => n * 10 + (c.toNat - 48)) 0

/-- Whether the first character exists and is `'0'`. -/
def startsWithZero (s : String) : Bool :=
  match s.toList with
  | [] => false
  | c :: _ => c == '0'

/-- A canonical array-index string in the ECMAScript sense: a canonical decimal
numeral whose value is below `2^32 - 1`.  `Object.entries` enumerates such keys
first, in ascending numeric order, before the remaining string keys in
insertion order. -/
def isCanonicalIndex (s : String) : Bool :=
  !s.toList.isEmpty && s.toList.all Char.isDigit && (s == "0" || !startsWithZero s)
    && digitsToNat s < 4294967295

/-- Insert one entry into a list kept ascending by numeric key value. -/
def insertAsc (p : String × Group) : List (String × Group) → List (String × Group)
  | [] => [p]
  | q :: qs => if digitsToNat p.1 ≤ digitsToNat q.1 then p :: q :: qs else q :: insertAsc p qs

/-- Model of `Object.entries(groups)`: canonical array-index keys first in ascending
numeric order, then the remaining keys in insertion order. -/
def objectEntries (groups : List (String × Group)) : List (String × Group) :=
  ((groups.filter (fun p => isCanonicalIndex p.1)).foldr insertAsc [])
    ++ groups.filter (fun p => !(isCanonicalIndex p.1))

/-- Model of `size > 0 ? Array.from(set).join(', ') : '-'`. -/
def joinVals (l : List String) : String :=
  if l.isEmpty then "-" else String.intercalate ", " l

/-- One returned summary row. -/
structure SummaryRow where
  key : String
  customerName : String
  jobNos : String
  advanceTotal : String
  paymentTerms : String
  invoiceDate : String
  grandTotal : String
  fileCount : Nat
  ids : List Nat
deriving DecidableEq, Repr

/-- The final `Object.entries(groups).map(...)` projection. -/
def rowOfGroup (p : String × Group) : SummaryRow :=
  { key := p.1
    customerName := p.2.customerName
    jobNos := joinVals p.2.jobNos
    advanceTotal := joinVals p.2.advanceTotals
    paymentTerms := joinVals p.2.paymentTerms
    invoiceDate := joinVals p.2.invoiceDates
    grandTotal := joinVals p.2.grandTotals
    fileCount := p.2.files.length
    ids := p.2.ids }

/-- Step 1 of `summaryRows`: keep the selected, successful items that carry data. -/
def filteredItems (data : List ExtractedData) (selectedIds : List Nat) :
    List ExtractedData :=
  data.filter (fun item => selectedIds.contains item.id
    && item.status == Status.success && item.data.isSome)

/-- Model of `summaryRows` (the `useMemo` body): filter, early-return on empty, resolve
the six roles once, group, and project rows in `Object.entries` order. -/
def summaryRows (data : List ExtractedData) (selectedIds : List Nat)
    (fields : List String) : List SummaryRow :=
  let selectedItems := filteredItems data selectedIds
  if selectedItems.isEmpty then []
  else
    let rf := resolveRoleFields fields
    (objectEntries (groupsOf rf selectedItems)).map rowOfGroup

/-- Specification-side description of the group accumulated for one key:
`none` when no item carries the key, otherwise the fold of `appendItem` over
the items carrying the key, started from a fresh group (named after the first
such item) or from the group the accumulator already held. -/
def groupFold (rf : RoleFields) : Option Group → List ExtractedData → Option Group
  | none, [] => none
  | some g, items => some (items.foldl (appendItem rf) g)
  | none, it :: items => some ((it :: items).foldl (appendItem rf) (emptyGroup (rawOf rf it)))

/-! ## The export adapter (`exportToExcel`, `src/unnamed/part_002`) -/

/-- JavaScript object spread `{...base, ...ext}` flattened to key order:
base keys first (values overridden by `ext` where the key repeats), then the
new keys of `ext` in their order. -/
def objSpread (base ext : Record) : Record :=
  base.map (fun p =>
    match ext.find? (fun q => q.1 == p.1) with
    | some q => (p.1, q.2)
    | none => p)
  ++ ext.filter (fun q => !(base.any (fun p => p.1 == q.1)))

/-- The outcome of `exportToExcel`: either the visible refusal
(`alert("No data available to export."); return;`) or the produced sheet,
abstracted to its header row (column order) and its data rows. -/
inductive ExportResult where
  | refused (message : String)
  | exported (header : List String) (rows : List Record)
deriving DecidableEq, Repr

/-- Accumulate one row's keys into the header, first-seen order preserved
(`XLSX.utils.json_to_sheet`'s default header derivation). -/
def keysAdd (acc : List String) (r : Record) : List String :=
  r.foldl (fun a p => osAdd a p.1) acc

/-- The sheet's header: the union of all rows' keys in first-appearance order. -/
def sheetHeader (rows : List Record) : List String :=
  rows.foldl keysAdd []

/-- The filter of `exportToExcel`: successful items with data, restricted to the
selection when one is passed. -/
def exportQualifying (data : List ExtractedData) (selectedIds : Option (List Nat)) :
    List ExtractedData :=
  data.filter (fun item =>
    (item.status == Status.success && item.data.isSome)
    && (match selectedIds with
        | some s => s.contains item.id
        | none => true))

/-- Model of `exportToExcel`: build `{ FileName: item.fileName, ...item.data }` rows from
the qualifying items; refuse visibly when there are none. -/
def exportToExcel (data : List ExtractedData) (selectedIds : Option (List Nat)) :
    ExportResult :=
  let exportableData := (exportQualifying data selectedIds).map
    (fun item => objSpread [("FileName", FVal.str item.fileName)] (item.data.getD []))
  if exportableData.isEmpty then ExportResult.refused "No data available to export."
  else ExportResult.exported (sheetHeader exportableData) exportableData

/-- Projection used to state claims about the produced column order. -/
def exportHeaderOf : ExportResult → Option (List String)
  | .refused _ => none
  | .exported h _ => some h

/-! ## Concrete inputs used by witnesses and counterexamples -/

/-- A successful item whose Customer value is whitespace only. -/
def wsItem : ExtractedData :=
  { id := 1, fileName := "w.pdf", status := .success
    data := some [("Customer", .str "   ")] }

/-- Successful item with raw customer `"Acme Corp"`. -/
def acmeA : ExtractedData :=
  { id := 1, fileName := "a.pdf", status := .success
    data := some [("Customer", .str "Acme Corp"), ("Job No", .str "J1")] }

/-- Successful item with raw customer `" ACME CORP "`. -/
def acmeB : ExtractedData :=
  { id := 2, fileName := "b.pdf", status := .success
    data := some [("Customer", .str " ACME CORP "), ("Job No", .str "J2")] }

/-- Successful item whose customer is the non-numeric string `"B"`. -/
def custBItem : ExtractedData :=
  { id := 1, fileName := "b.pdf", status := .success
    data := some [("Customer", .str "B")] }

/-- Successful item whose customer is the numeric string `"5"`. -/
def cust5Item : ExtractedData :=
  { id := 2, fileName := "5.pdf", status := .success
    data := some [("Customer", .str "5")] }

/-- A one-document input. -/
def demoDoc : Document := { name := "a.pdf" }

/-- A second document. -/
def demoDocB : Document := { name := "b.pdf" }

/-- App state holding one document and one field, ready to run. -/
def demoRunState : AppState := { files := [demoDoc], fields := ["Total"] }

/-- App state holding two documents and one field, ready to run. -/
def demoTwoState : AppState := { files := [demoDoc, demoDocB], fields := ["Total"] }

/-- An extraction operation that always succeeds. -/
def demoExtract : Document → List String → Except String Record :=
  fun _ _ => Except.ok [("Total", FVal.str "5")]

/-- An extraction operation that throws on `a.pdf` and succeeds elsewhere. -/
def failExtract : Document → List String → Except String Record :=
  fun d _ => if d.name = "a.pdf" then Except.error "boom"
    else Except.ok [("Total", FVal.str "7")]

/-- A successful item whose data keys appear in the order `B`, `A`. -/
def exportCexItem : ExtractedData :=
  { id := 1, fileName := "f.pdf", status := .success
    data := some [("B", .str "2"), ("A", .str "1")] }

/-- A store left over from an earlier, completed batch. -/
def staleStore : List ExtractedData :=
  [{ id := 7, fileName := "old.pdf", status := .success, data := some [("F", .str "1")] }]

/-- App state as it stands when `startExtraction` is invoked with no files. -/
def preState : AppState :=
  { files := [], fields := ["F"], results := staleStore, status := .completed
    selectedIds := [7], activeTab := .all }

/-- The results array held by a superseded batch run's loop closure. -/
def staleBatchArray : List ExtractedData :=
  [{ id := 0, fileName := "old.pdf", status := .error, error := some "stale" }]

/-- The store contents of the batch the user is currently running. -/
def currentBatchArray : List ExtractedData :=
  [{ id := 0, fileName := "new.pdf", status := .pending }]

/-- A file list with one entry. -/
def demoFiles : List Document := [{ name := "a.pdf" }]

/-- An incoming selection: one name collides with the list, one is new. -/
def demoNewFiles : List Document := [{ name := "a.pdf", content := 1 }, { name := "b.pdf" }]

/-- A store with one successful item used to exercise data edits. -/
def demoStore : List ExtractedData :=
  [{ id := 7, fileName := "x.pdf", status := .success, data := some [("F", .str "1")] }]

/-! ## C8 — behaviour on empty documents / empty FieldSet -/

/-- C8 counterexample: invoked on a state with no files (and a live store from
an earlier batch), `startExtraction` returns normally and leaves the whole
application state — store included — exactly as it was.  Nothing fails fast:
the guard is a bare `return` before any state update. -/
theorem startExtraction_empty_counterexample :
    startExtraction demoExtract preState = preState ∧ preState.results ≠ [] := by
  decide

/-- C8 as amended: with an empty document list or an empty FieldSet, `run` is a
silent no-op — it returns immediately with the application state unchanged
rather than failing fast. -/
theorem startExtraction_empty_noop
    (extract : Document → List String → Except String Record) (st : AppState)
    (h : st.files = [] ∨ st.fields = []) :
    startExtraction extract st = st := by
  unfold startExtraction
  rcases h with h | h <;> simp [h]

/-- Witness for `startExtraction_empty_noop` at a concrete state. -/
theorem startExtraction_empty_noop_witness :
    (preState.files = [] ∨ preState.fields = []) ∧
      startExtraction demoExtract preState = preState :=
  ⟨Or.inl rfl, startExtraction_empty_noop demoExtract preState (Or.inl rfl)⟩

/-! ## C6 — stale completions from a superseded batch -/

/-- C6: the claim says stale completions are detected via a batch-generation
tag and dropped.  The component state (`AppState`) carries no generation tag,
and the loop's store write `setResults([...updatedResults])` — modelled by
`commitBatchResults` — replaces the current store with the superseded batch's
own array.  Evaluated at the failing input: the stale batch's completion
overwrites the current run's store instead of being dropped. -/
theorem stale_commit_overwrites_store :
    commitBatchResults currentBatchArray staleBatchArray = staleBatchArray ∧
      staleBatchArray ≠ currentBatchArray := by
  decide

/-! ## C10 — duplicate file names -/

/-- C10 counterexample: two files with the same name arriving in a single
selection are both added — the duplicate filter only checks incoming names
against the names already in the list — so batch file names are not pairwise
distinct. -/
theorem handleFilesSelected_duplicates_counterexample :
    ((handleFilesSelected [] [{ name := "a.pdf" }, { name := "a.pdf", content := 1 }]).map
        (·.name) = ["a.pdf", "a.pdf"]) ∧
      ¬ List.Nodup ["a.pdf", "a.pdf"] := by
  decide

/-- C10 as amended: an incoming file whose name equals the name of a file
already in the list is silently skipped (no occurrence of an existing name is
added), and the batch's names stay pairwise distinct provided the incoming
selection itself carries pairwise-distinct names. -/
theorem handleFilesSelected_names (files newFiles : List Document)
    (hd : (files.map (·.name)).Nodup) (hnd : (newFiles.map (·.name)).Nodup) :
    ((handleFilesSelected files newFiles).map (·.name)).Nodup ∧
      ∀ n ∈ files.map (·.name),
        ((handleFilesSelected files newFiles).map (·.name)).count n
          = (files.map (·.name)).count n := by
  have hEq : handleFilesSelected files newFiles
      = files ++ newFiles.filter (fun f => !((files.map (·.name)).contains f.name)) := rfl
  have hmapped : ∀ n ∈ (newFiles.filter
      (fun f => !((files.map (·.name)).contains f.name))).map (·.name),
      n ∉ files.map (·.name) := by
    intro n hn
    obtain ⟨g, hg, rfl⟩ := List.mem_map.mp hn
    have h2 := (List.mem_filter.mp hg).2
    simpa [List.contains, List.elem_eq_mem] using h2
  constructor
  · rw [hEq, List.map_append, List.nodup_append]
    refine ⟨hd, ?_, ?_⟩
    · exact hnd.sublist (List.Sublist.map _ (List.filter_sublist _))
    · intro n hn hmem
      exact hmapped n hmem hn
  · intro n hn
    rw [hEq, List.map_append, List.count_append,
      List.count_eq_zero.mpr (fun hmem => hmapped n hmem hn)]
    omega

/-- Witness for `handleFilesSelected_names` at a concrete input. -/
theorem handleFilesSelected_names_witness :
    ((demoFiles.map (·.name)).Nodup ∧ (demoNewFiles.map (·.name)).Nodup) ∧
      (((handleFilesSelected demoFiles demoNewFiles).map (·.name)).Nodup ∧
        ∀ n ∈ demoFiles.map (·.name),
          ((handleFilesSelected demoFiles demoNewFiles).map (·.name)).count n
            = (demoFiles.map (·.name)).count n) :=
  ⟨⟨by decide, by decide⟩,
    handleFilesSelected_names demoFiles demoNewFiles (by decide) (by decide)⟩

/-! ## C2 — field-to-role resolution order -/

/-- C2 counterexample: the Customer role's priority-ordered pattern list is
`/customer/`, `/name/`, `/client/`.  With FieldSet `["Client Name", "Customer"]`,
the field `"Customer"` matches the highest-priority pattern `"customer"`, while
`"Client Name"` does not match `"customer"` and matches only the lower-priority
patterns `"name"` and `"client"`; yet resolution returns `"Client Name"` — the
first field in FieldSet order matching *any* pattern — not `"Customer"` as the
claim requires. -/
theorem findField_priority_counterexample :
    customerPatterns = ["customer", "name", "client"] ∧
      (patTest "customer" "Customer" = true
        ∧ patTest "customer" "Client Name" = false) ∧
      (patTest "name" "Client Name" = true
        ∧ patTest "client" "Client Name" = true) ∧
      findField ["Client Name", "Customer"] customerPatterns = some "Client Name" ∧
      findField ["Client Name", "Customer"] customerPatterns ≠ some "Customer" := by
  decide

/-- C2 as amended: the order of a role's pattern list is irrelevant to
resolution — permuting the patterns resolves every FieldSet to the same field —
and the resolved field is exactly the first field in FieldSet order whose
case-folded name matches at least one pattern.  So a higher-priority pattern
never overrides FieldSet order: pattern priority plays no part at all. -/
theorem findField_first_match (fields patterns patternsAlt : List String)
    (f : String) (hperm : List.Perm patternsAlt patterns) :
    (findField fields patternsAlt = findField fields patterns) ∧
      (findField fields patterns = some f ↔
        ∃ pre post, fields = pre ++ f :: post ∧
          patterns.any (fun p => patTest p f) = true ∧
          ∀ g ∈ pre, patterns.any (fun p => patTest p g) = false) := by
  constructor
  · have hpred : (fun g => patternsAlt.any fun p => patTest p g)
        = (fun g => patterns.any fun p => patTest p g) := by
      funext g
      cases h : patterns.any (fun p => patTest p g) with
      | true =>
        obtain ⟨p, hp, hq⟩ := List.any_eq_true.mp h
        exact List.any_eq_true.mpr ⟨p, hperm.mem_iff.mpr hp, hq⟩
      | false =>
        refine List.any_eq_false.mpr ?_
        intro p hp
        exact List.any_eq_false.mp h p (hperm.mem_iff.mp hp)
    rw [findField, findField, hpred]
  · induction fields with
    | nil => simp [findField]
    | cons h t ih =>
      rw [findField] at ih ⊢
      rw [List.find?_cons]
      cases hp : patterns.any (fun p => patTest p h) with
      | true =>
        constructor
        · intro he
          obtain rfl : h = f := by injection he
          exact ⟨[], t, rfl, hp, by simp⟩
        · rintro ⟨pre, post, heq, hf, hall⟩
          cases pre with
          | nil =>
            have hpair : h = f ∧ t = post := by simpa using heq
            rw [hpair.1]
          | cons g pre' =>
            have hpair : h = g ∧ t = pre' ++ f :: post := by simpa using heq
            have hgf := hall g (List.mem_cons_self g pre')
            rw [← hpair.1] at hgf
            rw [hgf] at hp
            cases hp
      | false =>
        constructor
        · intro he
          obtain ⟨pre, post, heq, hf, hall⟩ := ih.mp he
          refine ⟨h :: pre, post, by rw [heq, List.cons_append], hf, ?_⟩
          intro g hg
          rcases List.mem_cons.mp hg with rfl | hg'
          · exact hp
          · exact hall g hg'
        · rintro ⟨pre, post, heq, hf, hall⟩
          cases pre with
          | nil =>
            obtain ⟨rfl, rfl⟩ : h = f ∧ t = post := by simpa using heq
            exact absurd hf (by simp [hp])
          | cons g pre' =>
            obtain ⟨rfl, ht⟩ : h = g ∧ t = pre' ++ f :: post := by simpa using heq
            exact ih.mpr ⟨pre', post, ht, hf,
              fun g' hg' => hall g' (List.mem_cons_of_mem _ hg')⟩

/-- Witness for `findField_first_match` at a concrete input: reversing the
Customer pattern list (inverting every priority) leaves resolution unchanged,
and the characterization is instantiated on the counterexample FieldSet. -/
theorem findField_first_match_witness :
    List.Perm customerPatterns.reverse customerPatterns ∧
      ((findField ["Client Name", "Customer"] customerPatterns.reverse
          = findField ["Client Name", "Customer"] customerPatterns) ∧
        (findField ["Client Name", "Customer"] customerPatterns
            = some "Client Name" ↔
          ∃ pre post, ["Client Name", "Customer"] = pre ++ "Client Name" :: post ∧
            (customerPatterns.any fun p => patTest p "Client Name") = true ∧
            ∀ g ∈ pre, (customerPatterns.any fun p => patTest p g) = false)) :=
  ⟨List.reverse_perm customerPatterns,
    findField_first_match ["Client Name", "Customer"] customerPatterns
      customerPatterns.reverse "Client Name" (List.reverse_perm customerPatterns)⟩

/-! ## Orchestrator lemmas -/

theorem initResultsFrom_length (files : List Document) :
    ∀ start, (initResultsFrom start files).length = files.length := by
  induction files with
  | nil => intro start; rfl
  | cons f fs ih => intro start; simp [initResultsFrom, ih]

theorem initResultsFrom_get? (files : List Document) :
    ∀ (start i : Nat),
      (initResultsFrom start files).get? i
        = (files.get? i).map (fun f =>
            { id := start + i, fileName := f.name, status := Status.pending }) := by
  induction files with
  | nil => intro start i; simp [initResultsFrom]
  | cons f fs ih =>
    intro start i
    cases i with
    | zero => simp [initResultsFrom]
    | succ n =>
      show (initResultsFrom (start + 1) fs).get? n = _
      rw [ih (start + 1) n, List.get?_cons_succ]
      have h : start + 1 + n = start + (n + 1) := by omega
      rw [h]

theorem processDoc_fileName (extract : Document → List String → Except String Record)
    (fields : List String) (f : Document) (item : ExtractedData) :
    (processDoc extract fields f item).fileName = item.fileName := by
  unfold processDoc
  cases extract f fields <;> rfl

theorem processDoc_terminal (extract : Document → List String → Except String Record)
    (fields : List String) (f : Document) (item : ExtractedData) :
    (processDoc extract fields f item).status = Status.success
      ∨ (processDoc extract fields f item).status = Status.error := by
  unfold processDoc
  cases extract f fields with
  | ok d => exact Or.inl rfl
  | error e => exact Or.inr rfl

theorem processDoc_of_error (extract : Document → List String → Except String Record)
    (fields : List String) (f : Document) (item : ExtractedData) (e : String)
    (h : extract f fields = Except.error e) :
    processDoc extract fields f item
      = { item with status := Status.error, error := some (errMessage e) } := by
  unfold processDoc
  rw [h]

theorem processDoc_congr (extract extractAlt : Document → List String → Except String Record)
    (fields : List String) (f : Document) (item : ExtractedData)
    (h : extractAlt f fields = extract f fields) :
    processDoc extractAlt fields f item = processDoc extract fields f item := by
  unfold processDoc
  rw [h]

theorem runLoop_length (extract : Document → List String → Except String Record)
    (fields : List String) :
    ∀ (files : List Document) (items : List ExtractedData),
      items.length = files.length →
      (runLoop extract fields files items).length = files.length := by
  intro files
  induction files with
  | nil =>
    intro items h
    simpa [runLoop] using h
  | cons f fs ih =>
    intro items h
    cases items with
    | nil => simp at h
    | cons it its =>
      have hlen : its.length = fs.length := by simpa using h
      simp [runLoop, ih its hlen]

theorem runLoop_get? (extract : Document → List String → Except String Record)
    (fields : List String) :
    ∀ (files : List Document) (items : List ExtractedData) (i : Nat),
      items.length = files.length →
      (runLoop extract fields files items).get? i
        = match files.get? i, items.get? i with
          | some f, some it => some (processDoc extract fields f it)
          | _, _ => none := by
  intro files
  induction files with
  | nil =>
    intro items i h
    obtain rfl : items = [] := List.length_eq_zero.mp h
    simp [runLoop]
  | cons f fs ih =>
    intro items i h
    cases items with
    | nil => simp at h
    | cons it its =>
      have hlen : its.length = fs.length := by simpa using h
      cases i with
      | zero => simp [runLoop]
      | succ n =>
        show (runLoop extract fields fs its).get? n = _
        rw [ih its n hlen, List.get?_cons_succ, List.get?_cons_succ]

theorem startExtraction_results (extract : Document → List String → Except String Record)
    (st : AppState) (hf : st.files ≠ []) (hfl : st.fields ≠ []) :
    (startExtraction extract st).results
      = runLoop extract st.fields st.files (initResults st.files) := by
  have h' : ¬(st.files.length = 0 ∨ st.fields.length = 0) := by
    rintro (h | h)
    · exact hf (List.length_eq_zero.mp h)
    · exact hfl (List.length_eq_zero.mp h)
  unfold startExtraction
  rw [if_neg h']

/-! ## C1 — store contents after a completed run -/

/-- C1: for a non-empty batch and a non-empty FieldSet, after `run` completes
the store holds exactly one item per input document — item `i` is for document
`i`, so input order is preserved — and every item is in a terminal state
(`Success` or `Error`). -/
theorem startExtraction_store_complete
    (extract : Document → List String → Except String Record) (st : AppState)
    (hf : st.files ≠ []) (hfl : st.fields ≠ []) :
    ((startExtraction extract st).results.length = st.files.length) ∧
      (∀ i : Nat, ((startExtraction extract st).results.get? i).map (·.fileName)
        = (st.files.get? i).map (·.name)) ∧
      (∀ it ∈ (startExtraction extract st).results,
        it.status = Status.success ∨ it.status = Status.error) := by
  have hres := startExtraction_results extract st hf hfl
  have hlen0 : (initResults st.files).length = st.files.length :=
    initResultsFrom_length st.files 0
  refine ⟨?_, ?_, ?_⟩
  · rw [hres]
    exact runLoop_length _ _ _ _ hlen0
  · intro i
    rw [hres, runLoop_get? _ _ _ _ i hlen0, initResults,
      initResultsFrom_get? st.files 0 i]
    cases hgf : st.files.get? i with
    | none => simp
    | some f => simp [processDoc_fileName]
  · intro it hit
    rw [hres] at hit
    obtain ⟨i, hi⟩ := List.get?_of_mem hit
    rw [runLoop_get? _ _ _ _ i hlen0, initResults,
      initResultsFrom_get? st.files 0 i] at hi
    cases hgf : st.files.get? i with
    | none => rw [hgf] at hi; simp at hi
    | some f =>
      rw [hgf] at hi
      obtain rfl : processDoc extract st.fields f
          { id := 0 + i, fileName := f.name, status := Status.pending } = it := by
        simpa using hi
      exact processDoc_terminal _ _ _ _

/-- Witness for `startExtraction_store_complete` at a concrete input. -/
theorem startExtraction_store_complete_witness :
    (demoRunState.files ≠ [] ∧ demoRunState.fields ≠ []) ∧
      (((startExtraction demoExtract demoRunState).results.length
          = demoRunState.files.length) ∧
        (∀ i : Nat, ((startExtraction demoExtract demoRunState).results.get? i).map
            (·.fileName) = (demoRunState.files.get? i).map (·.name)) ∧
        (∀ it ∈ (startExtraction demoExtract demoRunState).results,
          it.status = Status.success ∨ it.status = Status.error)) :=
  ⟨⟨by decide, by decide⟩,
    startExtraction_store_complete demoExtract demoRunState (by decide) (by decide)⟩

/-! ## C5 — isolation of a single item's failure -/

/-- C5: a document whose extraction call throws ends as an `Error` item
carrying the thrown message with `data` unset; each item's final state is a
function of its own document's extraction result alone (so one item's failure
alters no other item), and every document of the batch still reaches a
terminal state. -/
theorem extraction_failure_isolated
    (extract extractAlt : Document → List String → Except String Record)
    (st : AppState) (j : Nat) (f : Document) (e : String)
    (hf : st.files ≠ []) (hfl : st.fields ≠ [])
    (hj : st.files.get? j = some f) (he : extract f st.fields = Except.error e)
    (hne : e ≠ "") :
    ((startExtraction extract st).results.get? j
        = some { id := j, fileName := f.name, status := Status.error,
                 data := none, error := some e }) ∧
      (∀ i g, st.files.get? i = some g →
        extractAlt g st.fields = extract g st.fields →
        (startExtraction extractAlt st).results.get? i
          = (startExtraction extract st).results.get? i) ∧
      (∀ i, i < st.files.length →
        ∃ it, (startExtraction extract st).results.get? i = some it
          ∧ (it.status = Status.success ∨ it.status = Status.error)) := by
  have hres := startExtraction_results extract st hf hfl
  have hresAlt := startExtraction_results extractAlt st hf hfl
  have hlen0 : (initResults st.files).length = st.files.length :=
    initResultsFrom_length st.files 0
  refine ⟨?_, ?_, ?_⟩
  · rw [hres, runLoop_get? _ _ _ _ j hlen0, initResults,
      initResultsFrom_get? st.files 0 j, hj]
    rw [Option.map_some']
    show some (processDoc extract st.fields f
      { id := 0 + j, fileName := f.name, status := Status.pending }) = _
    rw [processDoc_of_error extract st.fields f _ e he]
    have hmsg : errMessage e = e := if_neg hne
    simp [hmsg, Nat.zero_add]
  · intro i g hg hagree
    rw [hres, hresAlt, runLoop_get? _ _ _ _ i hlen0,
      runLoop_get? _ _ _ _ i hlen0, hg, initResults,
      initResultsFrom_get? st.files 0 i, hg]
    rw [Option.map_some']
    show some (processDoc extractAlt st.fields g
        { id := 0 + i, fileName := g.name, status := Status.pending })
      = some (processDoc extract st.fields g
        { id := 0 + i, fileName := g.name, status := Status.pending })
    rw [processDoc_congr extract extractAlt st.fields g _ hagree]
  · intro i hlt
    rw [hres, runLoop_get? _ _ _ _ i hlen0, initResults,
      initResultsFrom_get? st.files 0 i, List.get?_eq_get hlt]
    rw [Option.map_some']
    exact ⟨_, rfl, processDoc_terminal _ _ _ _⟩

/-- Witness for `extraction_failure_isolated` at a concrete input: a two-file
batch whose first document's extraction throws `"boom"`. -/
theorem extraction_failure_isolated_witness :
    (demoTwoState.files ≠ [] ∧ demoTwoState.fields ≠ []
        ∧ demoTwoState.files.get? 0 = some demoDoc
        ∧ failExtract demoDoc demoTwoState.fields = Except.error "boom"
        ∧ "boom" ≠ "") ∧
      (startExtraction failExtract demoTwoState).results.get? 0
        = some { id := 0, fileName := demoDoc.name, status := Status.error,
                 data := none, error := some "boom" } :=
  ⟨⟨by decide, by decide, by decide, rfl, by decide⟩,
    (extraction_failure_isolated failExtract demoExtract demoTwoState 0 demoDoc
      "boom" (by decide) (by decide) (by decide) rfl (by decide)).1⟩

/-! ## Record-edit lemmas -/

theorem lookupRec_cons (p : String × FVal) (d : Record) (k : String) :
    lookupRec (p :: d) k = if p.1 == k then some p.2 else lookupRec d k := by
  unfold lookupRec
  rw [List.find?_cons]
  cases hp : p.1 == k <;> simp [hp]

theorem lookupRec_updateKey (k g : String) (v : FVal) :
    ∀ d : Record, lookupRec (updateKey k v d) g
      = if g = k then (lookupRec d k).map (fun _ => v) else lookupRec d g := by
  intro d
  induction d with
  | nil =>
    simp only [updateKey, List.map_nil]
    split <;> rfl
  | cons p rest ih =>
    have hu : updateKey k v (p :: rest)
        = (if p.1 == k then (p.1, v) else p) :: updateKey k v rest := rfl
    rw [hu, lookupRec_cons, ih, lookupRec_cons]
    by_cases hpk : p.1 = k <;> by_cases hgk : g = k <;>
      simp [hpk, hgk, lookupRec_cons] <;> simp [Ne.symm hgk]

theorem lookupRec_objSetKey (d : Record) (k g : String) (v : FVal) :
    lookupRec (objSetKey d k v) g
      = if g = k then some v else lookupRec d g := by
  unfold objSetKey
  by_cases hany : d.any (fun p => p.1 == k) = true
  · rw [if_pos hany, lookupRec_updateKey]
    by_cases hgk : g = k
    · subst hgk
      obtain ⟨p, hp, hpk⟩ := List.any_eq_true.mp hany
      have hs : (d.find? (fun q => q.1 == g)).isSome :=
        List.find?_isSome.mpr ⟨p, hp, hpk⟩
      obtain ⟨q, hq⟩ := Option.isSome_iff_exists.mp hs
      simp [lookupRec, hq]
    · simp [hgk]
  · rw [if_neg hany]
    have hnone : d.find? (fun q => q.1 == k) = none := by
      rw [List.find?_eq_none]
      intro x hx hxk
      exact hany (List.any_eq_true.mpr ⟨x, hx, hxk⟩)
    by_cases hgk : g = k
    · subst hgk
      simp [lookupRec, List.find?_append, hnone]
    · have hkg : (k == g) = false := by
        rw [beq_eq_false_iff_ne]
        exact Ne.symm hgk
      simp [lookupRec, List.find?_append, hkg, hgk]

/-! ## C9 — frame conditions of a post-hoc data edit -/

/-- C9: a `handleDataUpdate id field value` call preserves the store's length;
on every item it keeps `id`, `fileName`, `status` and `error` unchanged; items
with a different id, and items without a `data` mapping, are returned
entirely unchanged; on the targeted item it sets exactly the named field to
the new value and leaves the looked-up value of every other field unchanged. -/
theorem handleDataUpdate_frame (results : List ExtractedData) (id : Nat)
    (field value : String) :
    ((handleDataUpdate results id field value).length = results.length) ∧
      ∀ i item itemNew,
        results.get? i = some item →
        (handleDataUpdate results id field value).get? i = some itemNew →
        ((itemNew.id = item.id ∧ itemNew.fileName = item.fileName
            ∧ itemNew.status = item.status ∧ itemNew.error = item.error) ∧
          (item.data = none → itemNew = item) ∧
          (item.id ≠ id → itemNew = item) ∧
          (∀ d, item.data = some d → item.id = id →
            ∃ dNew, itemNew.data = some dNew
              ∧ lookupRec dNew field = some (FVal.str value)
              ∧ ∀ g, g ≠ field → lookupRec dNew g = lookupRec d g)) := by
  constructor
  · exact List.length_map _ _
  · intro i item itemNew hget hgetNew
    rw [handleDataUpdate, List.get?_map, hget, Option.map_some'] at hgetNew
    obtain rfl : (if item.id == id && item.data.isSome then
        { item with data := item.data.map (fun d => objSetKey d field (.str value)) }
      else item) = itemNew := by
      injection hgetNew
    by_cases hcond : (item.id == id && item.data.isSome) = true
    · rw [if_pos hcond]
      have hid : item.id = id := by
        have := (Bool.and_eq_true ..).mp hcond
        exact beq_iff_eq.mp this.1
      have hsome : item.data.isSome := ((Bool.and_eq_true ..).mp hcond).2
      obtain ⟨d, hd⟩ := Option.isSome_iff_exists.mp hsome
      refine ⟨⟨rfl, rfl, rfl, rfl⟩, ?_, ?_, ?_⟩
      · intro hnone
        rw [hnone] at hd
        cases hd
      · intro hne
        exact absurd hid hne
      · intro d' hd' _
        rw [hd] at hd'
        obtain rfl : d = d' := by injection hd'
        refine ⟨objSetKey d field (.str value), by rw [hd]; rfl, ?_, ?_⟩
        · rw [lookupRec_objSetKey]
          simp
        · intro g hg
          rw [lookupRec_objSetKey, if_neg hg]
    · rw [if_neg hcond]
      refine ⟨⟨rfl, rfl, rfl, rfl⟩, fun _ => rfl, fun _ => rfl, ?_⟩
      intro d hd hid
      exact absurd (by simp [hid, hd]) hcond

/-- Witness for `handleDataUpdate_frame` at a concrete store. -/
theorem handleDataUpdate_frame_witness :
    (handleDataUpdate demoStore 7 "F" "9").length = demoStore.length :=
  (handleDataUpdate_frame demoStore 7 "F" "9").1

/-! ## Grouping-engine lemmas -/

theorem summaryRows_eq (data : List ExtractedData) (sel : List Nat)
    (fields : List String) :
    summaryRows data sel fields
      = if (filteredItems data sel).isEmpty then []
        else (objectEntries (groupsOf (resolveRoleFields fields)
          (filteredItems data sel))).map rowOfGroup := rfl

theorem lookupGroup_cons (p : String × Group) (groups : List (String × Group))
    (k : String) :
    lookupGroup (p :: groups) k
      = if p.1 == k then some p.2 else lookupGroup groups k := by
  unfold lookupGroup
  rw [List.find?_cons]
  cases hp : p.1 == k <;> simp [hp]

theorem lookupGroup_setGroup (k k' : String) (g : Group) :
    ∀ groups : List (String × Group),
      lookupGroup (setGroup groups k g) k'
        = if k' = k then some g else lookupGroup groups k' := by
  intro groups
  induction groups with
  | nil =>
    show lookupGroup [(k, g)] k' = _
    rw [lookupGroup_cons]
    by_cases h : k' = k
    · simp [h]
    · have hb : (k == k') = false := beq_eq_false_iff_ne.mpr (Ne.symm h)
      simp [hb, h, lookupGroup]
  | cons p rest ih =>
    show lookupGroup (if p.1 == k then (k, g) :: rest else p :: setGroup rest k g) k'
      = _
    by_cases hpk : p.1 = k
    · rw [if_pos (beq_iff_eq.mpr hpk), lookupGroup_cons, lookupGroup_cons]
      by_cases h : k' = k
      · simp [h]
      · have hb : (k == k') = false := beq_eq_false_iff_ne.mpr (Ne.symm h)
        have hb2 : (p.1 == k') = false := beq_eq_false_iff_ne.mpr (hpk ▸ Ne.symm h)
        simp [hb, hb2, h]
    · rw [if_neg (by simpa using hpk), lookupGroup_cons, ih, lookupGroup_cons]
      by_cases hpg : p.1 = k'
      · have : k' ≠ k := fun hc => hpk (hpg.trans hc)
        simp [beq_iff_eq.mpr hpg, this]
      · have hb : (p.1 == k') = false := beq_eq_false_iff_ne.mpr hpg
        simp [hb]

theorem keys_setGroup (k : String) (g : Group) :
    ∀ groups : List (String × Group),
      (setGroup groups k g).map (·.1) = osAdd (groups.map (·.1)) k := by
  intro groups
  induction groups with
  | nil => simp [setGroup, osAdd]
  | cons p rest ih =>
    show ((if p.1 == k then (k, g) :: rest else p :: setGroup rest k g).map (·.1)) = _
    by_cases hpk : p.1 = k
    · rw [if_pos (beq_iff_eq.mpr hpk)]
      simp [osAdd, hpk]
    · rw [if_neg (by simpa using hpk), List.map_cons, ih, osAdd, osAdd]
      by_cases hk : k ∈ rest.map (·.1) <;>
        simp [hk, List.map_cons, Ne.symm hpk]

theorem foldl_appendItem_customerName (rf : RoleFields) :
    ∀ (items : List ExtractedData) (g : Group),
      (items.foldl (appendItem rf) g).customerName = g.customerName := by
  intro items
  induction items with
  | nil => intro g; rfl
  | cons it rest ih =>
    intro g
    rw [List.foldl_cons, ih]
    rfl

theorem foldl_appendItem_ids (rf : RoleFields) :
    ∀ (items : List ExtractedData) (g : Group),
      (items.foldl (appendItem rf) g).ids = g.ids ++ items.map (·.id) := by
  intro items
  induction items with
  | nil => intro g; simp
  | cons it rest ih =>
    intro g
    rw [List.foldl_cons, ih]
    show (appendItem rf g it).ids ++ _ = _
    have h : (appendItem rf g it).ids = g.ids ++ [it.id] := rfl
    rw [h, List.append_assoc]
    rfl

theorem lookupGroup_foldl (rf : RoleFields) :
    ∀ (items : List ExtractedData) (acc : List (String × Group)) (k : String),
      lookupGroup (items.foldl (stepGroups rf) acc) k
        = groupFold rf (lookupGroup acc k)
            (items.filter (fun it => itemKeyOf rf it == k)) := by
  intro items
  induction items with
  | nil =>
    intro acc k
    show lookupGroup acc k = groupFold rf (lookupGroup acc k) []
    cases lookupGroup acc k <;> rfl
  | cons it rest ih =>
    intro acc k
    show lookupGroup (rest.foldl (stepGroups rf) (stepGroups rf acc it)) k = _
    rw [ih (stepGroups rf acc it) k]
    have hstep : lookupGroup (stepGroups rf acc it) k
        = if k = itemKeyOf rf it
          then some (appendItem rf
            (match lookupGroup acc (itemKeyOf rf it) with
              | some g => g
              | none => emptyGroup (rawOf rf it)) it)
          else lookupGroup acc k := by
      unfold stepGroups
      rw [lookupGroup_setGroup]
      rfl
    by_cases hk : k = itemKeyOf rf it
    · have hpred : (itemKeyOf rf it == k) = true := beq_iff_eq.mpr hk.symm
      have hfilter : List.filter (fun x => itemKeyOf rf x == k) (it :: rest)
          = it :: List.filter (fun x => itemKeyOf rf x == k) rest := by
        simp [List.filter_cons, hpred]
      rw [hfilter, hstep, if_pos hk]
      cases hacc : lookupGroup acc k with
      | some g =>
        rw [hk] at hacc
        rw [hacc]
        show some ((rest.filter _).foldl (appendItem rf) (appendItem rf g it)) = _
        rw [show groupFold rf (some g)
            (it :: rest.filter (fun x => itemKeyOf rf x == k))
          = some ((it :: rest.filter (fun x => itemKeyOf rf x == k)).foldl
              (appendItem rf) g) from rfl, List.foldl_cons]
      | none =>
        rw [hk] at hacc
        rw [hacc]
        show some ((rest.filter _).foldl (appendItem rf)
          (appendItem rf (emptyGroup (rawOf rf it)) it)) = _
        rw [show groupFold rf none
            (it :: rest.filter (fun x => itemKeyOf rf x == k))
          = some ((it :: rest.filter (fun x => itemKeyOf rf x == k)).foldl
              (appendItem rf) (emptyGroup (rawOf rf it))) from rfl, List.foldl_cons]
    · have hpred : (itemKeyOf rf it == k) = false :=
        beq_eq_false_iff_ne.mpr (fun hc => hk hc.symm)
      have hfilter : List.filter (fun x => itemKeyOf rf x == k) (it :: rest)
          = List.filter (fun x => itemKeyOf rf x == k) rest := by
        simp [List.filter_cons, hpred]
      rw [hfilter, hstep, if_neg hk]

theorem keys_foldl (rf : RoleFields) :
    ∀ (items : List ExtractedData) (acc : List (String × Group)),
      (items.foldl (stepGroups rf) acc).map (·.1)
        = items.foldl (fun ks it => osAdd ks (itemKeyOf rf it)) (acc.map (·.1)) := by
  intro items
  induction items with
  | nil => intro acc; rfl
  | cons it rest ih =>
    intro acc
    rw [List.foldl_cons, List.foldl_cons, ih]
    have hstep : (stepGroups rf acc it).map (·.1)
        = osAdd (acc.map (·.1)) (itemKeyOf rf it) := by
      unfold stepGroups
      rw [keys_setGroup]
      rfl
    rw [hstep]

theorem mem_insertAsc (p q : String × Group) :
    ∀ l, q ∈ insertAsc p l ↔ q = p ∨ q ∈ l := by
  intro l
  induction l with
  | nil => simp [insertAsc]
  | cons r rs ih =>
    unfold insertAsc
    by_cases h : digitsToNat p.1 ≤ digitsToNat r.1
    · simp [h]
    · simp [h, ih]
      tauto

theorem mem_foldr_insertAsc (q : String × Group) :
    ∀ l : List (String × Group), q ∈ l.foldr insertAsc [] ↔ q ∈ l := by
  intro l
  induction l with
  | nil => simp
  | cons r rs ih =>
    rw [List.foldr_cons, mem_insertAsc, ih]
    simp

theorem mem_objectEntries (groups : List (String × Group)) (p : String × Group) :
    p ∈ objectEntries groups ↔ p ∈ groups := by
  unfold objectEntries
  rw [List.mem_append, mem_foldr_insertAsc]
  constructor
  · rintro (h | h) <;> exact (List.mem_filter.mp h).1
  · intro h
    by_cases hc : isCanonicalIndex p.1 = true
    · exact Or.inl (List.mem_filter.mpr ⟨h, hc⟩)
    · exact Or.inr (List.mem_filter.mpr ⟨h, by simp [hc]⟩)

theorem mem_of_lookupGroup (groups : List (String × Group)) (k : String) (g : Group)
    (h : lookupGroup groups k = some g) : (k, g) ∈ groups := by
  unfold lookupGroup at h
  cases hf : groups.find? (fun p => p.1 == k) with
  | none => rw [hf] at h; cases h
  | some p =>
    rw [hf] at h
    obtain rfl : p.2 = g := by injection h
    have hpk := List.find?_some hf
    simp only [beq_iff_eq] at hpk
    have hk : p.1 = k := hpk
    have hmem := List.mem_of_find?_eq_some hf
    rw [← hk]
    exact hmem

/-! ## C3 — grouping by normalized customer value -/

/-- C3 counterexample: a Customer value that is whitespace only — hence empty
after trimming — is truthy in JavaScript, so the group key becomes the empty
string, not the literal `"Unknown"` (nor its case-folded form), and the
displayed customer name is the raw whitespace. -/
theorem summaryRows_unknown_counterexample :
    ((summaryRows [wsItem] [1] ["Customer"]).map (fun r => (r.key, r.customerName))
        = [("", "   ")]) ∧
      (∀ r ∈ summaryRows [wsItem] [1] ["Customer"],
        r.key ≠ "unknown" ∧ r.key ≠ "Unknown") := by
  decide

/-- C3 as amended: the group key is obtained from the raw customer display
string — the value's string form when the value is truthy, the literal
`"Unknown"` only when the value is absent, `null`, the empty string or the
number `0` (a whitespace-only value keys to the empty string) — by trim then
case-fold.  Two filtered items whose keys agree land in the same summary row,
whose `customerName` is the raw display string of the first item encountered
for that key. -/
theorem summaryRows_customer_grouping (data : List ExtractedData) (sel : List Nat)
    (fields : List String) (a b : ExtractedData)
    (ha : a ∈ filteredItems data sel) (hb : b ∈ filteredItems data sel)
    (hk : jsToLower (jsTrim (rawOf (resolveRoleFields fields) a))
        = jsToLower (jsTrim (rawOf (resolveRoleFields fields) b))) :
    ∃ row ∈ summaryRows data sel fields,
      a.id ∈ row.ids ∧ b.id ∈ row.ids ∧
      row.key = jsToLower (jsTrim (rawOf (resolveRoleFields fields) a)) ∧
      ∃ firstItem,
        ((filteredItems data sel).filter
          (fun it => itemKeyOf (resolveRoleFields fields) it
            == itemKeyOf (resolveRoleFields fields) a)).head? = some firstItem ∧
        row.customerName = rawOf (resolveRoleFields fields) firstItem := by
  have hk' : itemKeyOf (resolveRoleFields fields) a
      = itemKeyOf (resolveRoleFields fields) b := hk
  have hfa : a ∈ (filteredItems data sel).filter
      (fun it => itemKeyOf (resolveRoleFields fields) it
        == itemKeyOf (resolveRoleFields fields) a) :=
    List.mem_filter.mpr ⟨ha, beq_iff_eq.mpr rfl⟩
  have hfb : b ∈ (filteredItems data sel).filter
      (fun it => itemKeyOf (resolveRoleFields fields) it
        == itemKeyOf (resolveRoleFields fields) a) :=
    List.mem_filter.mpr ⟨hb, beq_iff_eq.mpr hk'.symm⟩
  cases hsplit : (filteredItems data sel).filter
      (fun it => itemKeyOf (resolveRoleFields fields) it
        == itemKeyOf (resolveRoleFields fields) a) with
  | nil =>
    rw [hsplit] at hfa
    cases hfa
  | cons firstItem rest =>
    have hmaster := lookupGroup_foldl (resolveRoleFields fields)
      (filteredItems data sel) [] (itemKeyOf (resolveRoleFields fields) a)
    rw [hsplit] at hmaster
    have hG : lookupGroup
        (groupsOf (resolveRoleFields fields) (filteredItems data sel))
        (itemKeyOf (resolveRoleFields fields) a)
        = some ((firstItem :: rest).foldl (appendItem (resolveRoleFields fields))
            (emptyGroup (rawOf (resolveRoleFields fields) firstItem))) := hmaster
    have hmemG := mem_of_lookupGroup _ _ _ hG
    have hmemO := (mem_objectEntries
      (groupsOf (resolveRoleFields fields) (filteredItems data sel)) _).mpr hmemG
    have hnonempty : (filteredItems data sel).isEmpty = false := by
      cases hcc : filteredItems data sel with
      | nil => rw [hcc] at ha; cases ha
      | cons x xs => rfl
    have hsum : summaryRows data sel fields
        = (objectEntries (groupsOf (resolveRoleFields fields)
            (filteredItems data sel))).map rowOfGroup := by
      rw [summaryRows_eq, hnonempty]
      rfl
    rw [hsum]
    rw [hsplit] at hfa hfb
    refine ⟨rowOfGroup (itemKeyOf (resolveRoleFields fields) a,
        (firstItem :: rest).foldl (appendItem (resolveRoleFields fields))
          (emptyGroup (rawOf (resolveRoleFields fields) firstItem))),
      List.mem_map_of_mem _ hmemO, ?_, ?_, rfl, firstItem, rfl, ?_⟩
    · show a.id ∈ ((firstItem :: rest).foldl (appendItem (resolveRoleFields fields))
        (emptyGroup (rawOf (resolveRoleFields fields) firstItem))).ids
      rw [foldl_appendItem_ids]
      have := List.mem_map_of_mem (fun it : ExtractedData => it.id) hfa
      simpa [emptyGroup] using this
    · show b.id ∈ ((firstItem :: rest).foldl (appendItem (resolveRoleFields fields))
        (emptyGroup (rawOf (resolveRoleFields fields) firstItem))).ids
      rw [foldl_appendItem_ids]
      have := List.mem_map_of_mem (fun it : ExtractedData => it.id) hfb
      simpa [emptyGroup] using this
    · show ((firstItem :: rest).foldl (appendItem (resolveRoleFields fields))
        (emptyGroup (rawOf (resolveRoleFields fields) firstItem))).customerName = _
      rw [foldl_appendItem_customerName]
      rfl

/-- Witness for `summaryRows_customer_grouping`: `"Acme Corp"` and
`" ACME CORP "` land in one row whose name is the first raw value. -/
theorem summaryRows_customer_grouping_witness :
    (acmeA ∈ filteredItems [acmeA, acmeB] [1, 2]
        ∧ acmeB ∈ filteredItems [acmeA, acmeB] [1, 2]
        ∧ jsToLower (jsTrim (rawOf (resolveRoleFields ["Customer", "Job No"]) acmeA))
          = jsToLower (jsTrim (rawOf (resolveRoleFields ["Customer", "Job No"]) acmeB))) ∧
      ∃ row ∈ summaryRows [acmeA, acmeB] [1, 2] ["Customer", "Job No"],
        acmeA.id ∈ row.ids ∧ acmeB.id ∈ row.ids ∧
        row.key = jsToLower (jsTrim (rawOf (resolveRoleFields ["Customer", "Job No"]) acmeA)) ∧
        ∃ firstItem,
          ((filteredItems [acmeA, acmeB] [1, 2]).filter
            (fun it => itemKeyOf (resolveRoleFields ["Customer", "Job No"]) it
              == itemKeyOf (resolveRoleFields ["Customer", "Job No"]) acmeA)).head?
            = some firstItem ∧
          row.customerName = rawOf (resolveRoleFields ["Customer", "Job No"]) firstItem :=
  ⟨⟨by decide, by decide, by decide⟩,
    summaryRows_customer_grouping [acmeA, acmeB] [1, 2] ["Customer", "Job No"]
      acmeA acmeB (by decide) (by decide) (by decide)⟩

/-! ## C4 — output order of the summary rows -/

/-- C4 counterexample: with customers `"B"` then `"5"`, first-seen key order is
`["b", "5"]`, but `Object.entries` lists the array-index-like key `"5"` first,
so the produced order is `["5", "b"]` — a reordering. -/
theorem summaryRows_entries_order_counterexample :
    ((summaryRows [custBItem, cust5Item] [1, 2] ["Customer"]).map (·.key)
        = ["5", "b"]) ∧
      ((filteredItems [custBItem, cust5Item] [1, 2]).foldl
          (fun ks it => osAdd ks (itemKeyOf (resolveRoleFields ["Customer"]) it)) []
        = ["b", "5"]) ∧
      (["5", "b"] : List String) ≠ ["b", "5"] := by
  decide

/-- C4 as amended: summary rows appear in first-seen insertion order of their
group keys whenever no group key is a canonical array-index string; keys that
are canonical array indices are enumerated first, in ascending numeric order,
by `Object.entries`. -/
theorem summaryRows_insertion_order (data : List ExtractedData) (sel : List Nat)
    (fields : List String)
    (hnum : ∀ p ∈ groupsOf (resolveRoleFields fields) (filteredItems data sel),
      isCanonicalIndex p.1 = false) :
    (summaryRows data sel fields).map (·.key)
      = (filteredItems data sel).foldl
          (fun ks it => osAdd ks (itemKeyOf (resolveRoleFields fields) it)) [] := by
  rw [summaryRows_eq]
  cases hitems : filteredItems data sel with
  | nil => rfl
  | cons it rest =>
    rw [hitems] at hnum
    rw [List.isEmpty_cons, if_neg (by simp)]
    have h1 : (groupsOf (resolveRoleFields fields) (it :: rest)).filter
        (fun p => isCanonicalIndex p.1) = [] :=
      List.filter_eq_nil_iff.mpr (fun p hp => by simp [hnum p hp])
    have h2 : (groupsOf (resolveRoleFields fields) (it :: rest)).filter
        (fun p => !(isCanonicalIndex p.1)) = groupsOf (resolveRoleFields fields) (it :: rest) :=
      List.filter_eq_self.mpr (fun p hp => by simp [hnum p hp])
    rw [List.map_map]
    have hcomp : ((fun r : SummaryRow => r.key) ∘ rowOfGroup)
        = fun p : String × Group => p.1 := rfl
    rw [hcomp]
    unfold objectEntries
    rw [h1, h2]
    show (groupsOf (resolveRoleFields fields) (it :: rest)).map (·.1) = _
    rw [groupsOf, keys_foldl]
    rfl

/-- Witness for `summaryRows_insertion_order` at a concrete input with
non-numeric customer keys. -/
theorem summaryRows_insertion_order_witness :
    (∀ p ∈ groupsOf (resolveRoleFields ["Customer", "Job No"])
        (filteredItems [acmeA, acmeB] [1, 2]), isCanonicalIndex p.1 = false) ∧
      (summaryRows [acmeA, acmeB] [1, 2] ["Customer", "Job No"]).map (·.key)
        = (filteredItems [acmeA, acmeB] [1, 2]).foldl
            (fun ks it => osAdd ks
              (itemKeyOf (resolveRoleFields ["Customer", "Job No"]) it)) [] :=
  ⟨by decide, summaryRows_insertion_order [acmeA, acmeB] [1, 2]
    ["Customer", "Job No"] (by decide)⟩

/-! ## Export lemmas -/

theorem mem_osAdd (l : List String) (s c : String) :
    c ∈ osAdd l s ↔ c ∈ l ∨ c = s := by
  unfold osAdd
  by_cases h : s ∈ l
  · rw [if_pos h]
    constructor
    · exact Or.inl
    · rintro (hc | rfl)
      · exact hc
      · exact h
  · rw [if_neg h]
    simp

theorem keysAdd_extends (r : Record) :
    ∀ acc : List String, ∃ t, keysAdd acc r = acc ++ t := by
  induction r with
  | nil => intro acc; exact ⟨[], by simp [keysAdd]⟩
  | cons p r' ih =>
    intro acc
    have hstep : keysAdd acc (p :: r') = keysAdd (osAdd acc p.1) r' := rfl
    obtain ⟨t₁, ht₁⟩ : ∃ t₁, osAdd acc p.1 = acc ++ t₁ := by
      unfold osAdd
      by_cases h : p.1 ∈ acc
      · exact ⟨[], by simp [h]⟩
      · exact ⟨[p.1], by simp [h]⟩
    obtain ⟨t₂, ht₂⟩ := ih (osAdd acc p.1)
    exact ⟨t₁ ++ t₂, by rw [hstep, ht₂, ht₁, List.append_assoc]⟩

theorem sheetHeader_extends (rows : List Record) :
    ∀ acc : List String, ∃ t, rows.foldl keysAdd acc = acc ++ t := by
  induction rows with
  | nil => intro acc; exact ⟨[], by simp⟩
  | cons r rows' ih =>
    intro acc
    obtain ⟨t₁, ht₁⟩ := keysAdd_extends r acc
    obtain ⟨t₂, ht₂⟩ := ih (keysAdd acc r)
    exact ⟨t₁ ++ t₂, by rw [List.foldl_cons, ht₂, ht₁, List.append_assoc]⟩

theorem mem_keysAdd (r : Record) :
    ∀ (acc : List String) (c : String),
      c ∈ keysAdd acc r ↔ c ∈ acc ∨ ∃ v, (c, v) ∈ r := by
  induction r with
  | nil => intro acc c; simp [keysAdd]
  | cons p r' ih =>
    intro acc c
    have hstep : keysAdd acc (p :: r') = keysAdd (osAdd acc p.1) r' := rfl
    rw [hstep, ih, mem_osAdd]
    constructor
    · rintro ((hc | rfl) | ⟨v, hv⟩)
      · exact Or.inl hc
      · exact Or.inr ⟨p.2, List.mem_cons_self _ _⟩
      · exact Or.inr ⟨v, List.mem_cons_of_mem _ hv⟩
    · rintro (hc | ⟨v, hv⟩)
      · exact Or.inl (Or.inl hc)
      · rcases List.mem_cons.mp hv with heq | hv'
        · exact Or.inl (Or.inr (congrArg Prod.fst heq))
        · exact Or.inr ⟨v, hv'⟩

theorem mem_sheetHeader_foldl (rows : List Record) :
    ∀ (acc : List String) (c : String),
      c ∈ rows.foldl keysAdd acc ↔ c ∈ acc ∨ ∃ r ∈ rows, ∃ v, (c, v) ∈ r := by
  induction rows with
  | nil => intro acc c; simp
  | cons r rows' ih =>
    intro acc c
    rw [List.foldl_cons, ih, mem_keysAdd]
    constructor
    · rintro ((hc | ⟨v, hv⟩) | ⟨r', hr', v, hv⟩)
      · exact Or.inl hc
      · exact Or.inr ⟨r, List.mem_cons_self _ _, v, hv⟩
      · exact Or.inr ⟨r', List.mem_cons_of_mem _ hr', v, hv⟩
    · rintro (hc | ⟨r', hr', v, hv⟩)
      · exact Or.inl (Or.inl hc)
      · rcases List.mem_cons.mp hr' with rfl | hr''
        · exact Or.inl (Or.inr ⟨v, hv⟩)
        · exact Or.inr ⟨r', hr'', v, hv⟩

theorem objSpread_single_head (x : String × FVal) (ext : Record) :
    ∃ w, objSpread [x] ext
      = (x.1, w) :: ext.filter (fun q => !(List.any [x] (fun p => p.1 == q.1))) := by
  unfold objSpread
  rw [List.map_cons, List.map_nil]
  cases hf : ext.find? (fun q => q.1 == x.1) with
  | none => exact ⟨x.2, rfl⟩
  | some q => exact ⟨q.2, rfl⟩

theorem mem_objSpread (base ext : Record) (c : String) (v : FVal)
    (h : (c, v) ∈ objSpread base ext) :
    (∃ w, (c, w) ∈ base) ∨ (c, v) ∈ ext := by
  unfold objSpread at h
  rcases List.mem_append.mp h with h1 | h2
  · obtain ⟨p, hp, heq⟩ := List.mem_map.mp h1
    left
    have hc : p.1 = c := by
      cases hf : ext.find? (fun q => q.1 == p.1) with
      | none => rw [hf] at heq; exact congrArg Prod.fst heq
      | some q => rw [hf] at heq; exact congrArg Prod.fst heq
    refine ⟨p.2, ?_⟩
    rw [← hc]
    exact hp
  · exact Or.inr (List.mem_filter.mp h2).1

/-! ## C7 — shape of the exported table -/

/-- C7 counterexample: the export adapter never receives the FieldSet; its
columns come from the data objects' own key order.  With FieldSet
`["A", "B"]` but a data record whose keys appear as `B`, `A`, the produced
columns are `FileName, B, A` — not the FieldSet order `FileName, A, B`. -/
theorem exportToExcel_columns_counterexample :
    (exportHeaderOf (exportToExcel [exportCexItem] none)
        = some ["FileName", "B", "A"]) ∧
      some ["FileName", "B", "A"] ≠ some ["FileName", "A", "B"] := by
  decide

/-- C7 as amended: the export refuses with a visible message exactly when no
item qualifies; otherwise the first column is `FileName`, there is one row per
qualifying item, and every further column is a key of some qualifying item's
data mapping (in first-appearance order — the FieldSet plays no part). -/
theorem exportToExcel_shape (data : List ExtractedData) (sel : Option (List Nat)) :
    ((exportToExcel data sel = ExportResult.refused "No data available to export.")
        ↔ exportQualifying data sel = []) ∧
      ∀ header rows, exportToExcel data sel = ExportResult.exported header rows →
        header.head? = some "FileName" ∧
        rows.length = (exportQualifying data sel).length ∧
        ∀ c ∈ header, c = "FileName"
          ∨ ∃ item ∈ exportQualifying data sel, ∃ v, (c, v) ∈ item.data.getD [] := by
  have hdef : exportToExcel data sel
      = if ((exportQualifying data sel).map (fun item =>
            objSpread [("FileName", FVal.str item.fileName)] (item.data.getD []))).isEmpty
        then ExportResult.refused "No data available to export."
        else ExportResult.exported
          (sheetHeader ((exportQualifying data sel).map (fun item =>
            objSpread [("FileName", FVal.str item.fileName)] (item.data.getD []))))
          ((exportQualifying data sel).map (fun item =>
            objSpread [("FileName", FVal.str item.fileName)] (item.data.getD []))) := rfl
  constructor
  · rw [hdef]
    cases hq : exportQualifying data sel with
    | nil => simp
    | cons item q' =>
      rw [List.map_cons, List.isEmpty_cons, if_neg (by simp)]
      constructor
      · intro h
        exact ExportResult.noConfusion h
      · intro h
        exact absurd h (List.cons_ne_nil _ _)
  · intro header rows hexp
    rw [hdef] at hexp
    cases hq : exportQualifying data sel with
    | nil =>
      rw [hq] at hexp
      simp at hexp
    | cons item q' =>
      rw [hq, List.map_cons, List.isEmpty_cons, if_neg (by simp)] at hexp
      cases hexp
      refine ⟨?_, ?_, ?_⟩
      · obtain ⟨w, hrow⟩ := objSpread_single_head
          ("FileName", FVal.str item.fileName) (item.data.getD [])
        show (sheetHeader _).head? = some "FileName"
        rw [sheetHeader, List.foldl_cons, hrow]
        have hstep : keysAdd []
            (("FileName", w) :: (item.data.getD []).filter
              (fun q => !(List.any [("FileName", FVal.str item.fileName)]
                (fun p => p.1 == q.1))))
          = keysAdd ["FileName"] ((item.data.getD []).filter
              (fun q => !(List.any [("FileName", FVal.str item.fileName)]
                (fun p => p.1 == q.1)))) := rfl
        rw [hstep]
        obtain ⟨t₁, ht₁⟩ := keysAdd_extends ((item.data.getD []).filter
          (fun q => !(List.any [("FileName", FVal.str item.fileName)]
            (fun p => p.1 == q.1)))) ["FileName"]
        obtain ⟨t₂, ht₂⟩ := sheetHeader_extends
          (q'.map (fun itm =>
            objSpread [("FileName", FVal.str itm.fileName)] (itm.data.getD [])))
          (keysAdd ["FileName"] ((item.data.getD []).filter
            (fun q => !(List.any [("FileName", FVal.str item.fileName)]
              (fun p => p.1 == q.1)))))
        rw [ht₂, ht₁]
        rfl
      · simp
      · intro c hc
        rcases (mem_sheetHeader_foldl _ [] c).mp hc with hacc | ⟨r, hr, v, hv⟩
        · cases hacc
        · have hsome : ∃ itm, itm ∈ item :: q'
              ∧ r = objSpread [("FileName", FVal.str itm.fileName)] (itm.data.getD []) := by
            rcases List.mem_cons.mp hr with rfl | hr'
            · exact ⟨item, List.mem_cons_self _ _, rfl⟩
            · obtain ⟨itm, hitm, rfl⟩ := List.mem_map.mp hr'
              exact ⟨itm, List.mem_cons_of_mem _ hitm, rfl⟩
          obtain ⟨itm, hitm, rfl⟩ := hsome
          rcases mem_objSpread _ _ c v hv with ⟨w', hw⟩ | hext
          · left
            rcases List.mem_cons.mp hw with heq | hnil
            · exact congrArg Prod.fst heq
            · cases hnil
          · right
            exact ⟨itm, hitm, v, hext⟩

/-- Witness for `exportToExcel_shape` at a concrete input. -/
theorem exportToExcel_shape_witness :
    (exportToExcel [exportCexItem] none
        = ExportResult.refused "No data available to export.")
      ↔ exportQualifying [exportCexItem] none = [] :=
  (exportToExcel_shape [exportCexItem] none).1

end PDFExtractor
